import Mathlib

/-!
Shallow embedding of the Landsat index-derivation pipeline
(`Processing/analysis.py`, class `SimpleLandsatAnalysis`).

A pixel grid is modelled as a flattened list of optional rationals:
`none` stands for NaN / nodata, `some x` for a finite float value.
Rationals stand for IEEE doubles; all arithmetic in the source is exact
on the inputs considered, so ℚ is a faithful carrier.  numpy reductions
(`mean`, `median`, `percentile`, `min`, `max`, `std`) are embedded with
their documented semantics (`percentile` with the default linear
interpolation).
-/

namespace MRSAC

/-- A pixel: `none` models NaN (nodata), `some x` a finite value. -/
abbrev Pix := Option ℚ

/-- A raster grid, flattened to one list of pixels. -/
abbrev Grid := List Pix

/-- The finite values of a grid, in order: `data[~np.isnan(data)]`. -/
def validVals (g : Grid) : List ℚ := g.filterMap id

/-- `np.where(x == 0, np.nan, x)`: zeros become nodata. -/
def maskZero (t : List ℚ) : Grid :=
  t.map (fun x => if x = 0 then none else some x)

/-- Insertion step of the sort used to embed numpy's sorted order. -/
def insertSorted (x : ℚ) : List ℚ → List ℚ
  | [] => [x]
  | y :: ys => if x ≤ y then x :: y :: ys else y :: insertSorted x ys

/-- Sorted copy of a list of rationals (ascending), as numpy sorts before
taking percentiles. -/
def qsort (l : List ℚ) : List ℚ := l.foldr insertSorted []

/-- `np.percentile(l, q)` with the default linear interpolation: on the
sorted data `s` of length `n`, the virtual index is `h = q/100 * (n-1)`
and the result interpolates between `s[⌊h⌋]` and `s[⌈h⌉]`. -/
def percentile (l : List ℚ) (q : ℚ) : ℚ :=
  let s := qsort l
  let h : ℚ := q / 100 * ((s.length : ℚ) - 1)
  let lo : ℤ := ⌊h⌋
  let hi : ℤ := ⌈h⌉
  let a := s.getD lo.toNat 0
  let b := s.getD hi.toNat 0
  a + (h - (lo : ℚ)) * (b - a)

/-- `np.mean`. -/
def npMean (l : List ℚ) : ℚ := l.sum / l.length

/-- `np.median`: equal to the 50th percentile with linear interpolation
(the middle element for odd length, the mean of the two middle elements
for even length). -/
def npMedian (l : List ℚ) : ℚ := percentile l 50

/-- `np.clip(x, 0, 1) = np.minimum(1, np.maximum(x, 0))`. -/
def clip01 (x : ℚ) : ℚ := min 1 (max 0 x)

/-- `np.clip(x, lo, hi) = np.minimum(hi, np.maximum(x, lo))`. -/
def clipQ (lo hi x : ℚ) : ℚ := min hi (max lo x)

/-- The source's local `valid_thermal`: the non-nodata digital values of
the zero-masked thermal band. -/
def valid_thermal (thermal_dn : List ℚ) : List ℚ := validVals (maskZero thermal_dn)

/-- `SimpleLandsatAnalysis.simple_lst_calculation`.  Zeros become NaN; if
no valid value remains the masked grid is returned as is.  Otherwise the
1st/99th percentiles of the valid values bound the digital range, the mean
picks the temperature range (mean < 35000 → 10..45, else 15..50); with a
positive span every finite pixel is clip-normalised and remapped (NaN
propagates), otherwise `np.full_like` fills the whole grid with the
midpoint.  Finally `np.where` turns any value outside [-50, 80] into NaN
(NaN compares false, so NaN pixels pass through unchanged). -/
def simple_lst_calculation (thermal_dn : List ℚ) : Grid :=
  let thermal_clean := maskZero thermal_dn
  let valid := valid_thermal thermal_dn
  if valid.length = 0 then thermal_clean
  else
    let min_dn := percentile valid 1
    let max_dn := percentile valid 99
    let temp_min : ℚ := if npMean valid < 35000 then 10 else 15
    let temp_max : ℚ := if npMean valid < 35000 then 45 else 50
    let dn_range := max_dn - min_dn
    let lst_celsius : Grid :=
      if 0 < dn_range then
        thermal_clean.map (fun p => p.map (fun x =>
          temp_min + clip01 ((x - min_dn) / dn_range) * (temp_max - temp_min)))
      else
        thermal_clean.map (fun _ => some ((temp_min + temp_max) / 2))
    lst_celsius.map (fun p => p.bind (fun v =>
      if v < -50 ∨ 80 < v then none else some v))

/-- One pixel of `simple_ndvi_calculation` before the final clip:
`np.where(denominator > 0, (nir - red) / denominator, np.nan)` where the
denominator `nir + red` is NaN (hence not `> 0`) as soon as either band
is NaN. -/
def ndviPix (r n : Pix) : Pix :=
  match r, n with
  | some rv, some nv => if 0 < nv + rv then some ((nv - rv) / (nv + rv)) else none
  | _, _ => none

/-- `SimpleLandsatAnalysis.simple_ndvi_calculation`: mask zeros in both
bands, form the guarded ratio, then `np.clip(ndvi, -1, 1)` (NaN stays
NaN under clip). -/
def simple_ndvi_calculation (red_dn nir_dn : List ℚ) : Grid :=
  let red := maskZero red_dn
  let nir := maskZero nir_dn
  let ndvi := List.zipWith ndviPix red nir
  ndvi.map (fun p => p.map (clipQ (-1) 1))

/-- `SimpleLandsatAnalysis.simple_uhi_calculation`: all-NaN output for an
all-NaN input, else subtract the median of the valid pixels from every
pixel (NaN propagates through the subtraction, no clipping). -/
def simple_uhi_calculation (lst_data : Grid) : Grid :=
  let valid_lst := validVals lst_data
  if valid_lst.length = 0 then lst_data.map (fun _ => none)
  else
    let rural_temp := npMedian valid_lst
    lst_data.map (fun p => p.map (fun x => x - rural_temp))

/-! ### Evaluation lemmas for the numeric helpers -/

theorem percentile_single (a q : ℚ) : percentile [a] q = a := by
  simp [percentile, qsort, insertSorted]

theorem qsort_pair_of_le {a b : ℚ} (hab : a ≤ b) : qsort [a, b] = [a, b] := by
  simp [qsort, insertSorted, hab]

theorem percentile_pair {a b : ℚ} (q : ℚ) (hab : a ≤ b) (h0 : 0 < q) (h1 : q < 100) :
    percentile [a, b] q = a + q / 100 * (b - a) := by
  have hq : (0 : ℚ) < q / 100 := by positivity
  have hq1 : q / 100 < 1 := (div_lt_one (by norm_num)).mpr h1
  have hfl : ⌊(q / 100 : ℚ)⌋ = 0 := by
    rw [Int.floor_eq_zero_iff]
    exact Set.mem_Ico.mpr ⟨le_of_lt hq, hq1⟩
  have hcl : ⌈(q / 100 : ℚ)⌉ = 1 := by
    rw [Int.ceil_eq_iff]
    refine ⟨by simpa using hq, by simpa using le_of_lt hq1⟩
  unfold percentile
  rw [qsort_pair_of_le hab]
  dsimp only
  have hlen : ((([a, b] : List ℚ).length : ℚ) - 1) = 1 := by norm_num
  rw [hlen, mul_one, hfl, hcl]
  simp [List.getD]

theorem npMedian_single (a : ℚ) : npMedian [a] = a := percentile_single a 50

theorem npMean_single (a : ℚ) : npMean [a] = a := by
  simp [npMean]

theorem clip01_nonneg (x : ℚ) : 0 ≤ clip01 x :=
  le_min (by norm_num) (le_max_left 0 x)

theorem clip01_le_one (x : ℚ) : clip01 x ≤ 1 := min_le_left 1 _

theorem validVals_nil_iff (g : Grid) : validVals g = [] ↔ ∀ p ∈ g, p = none := by
  unfold validVals
  rw [List.filterMap_eq_nil_iff]
  constructor
  · intro h p hp
    cases hpv : p with
    | none => rfl
    | some v => exact absurd (hpv ▸ h p hp) (by simp)
  · intro h p hp
    rw [h p hp]
    rfl

theorem mem_validVals {g : Grid} {v : ℚ} : v ∈ validVals g ↔ some v ∈ g := by
  unfold validVals
  rw [List.mem_filterMap]
  constructor
  · rintro ⟨p, hp, rfl⟩
    exact hp
  · intro h
    exact ⟨some v, h, rfl⟩

theorem percentile_nil (q : ℚ) : percentile [] q = 0 := by
  simp [percentile, qsort]

theorem valid_thermal_05 : valid_thermal [0, 5] = [5] := by
  norm_num [valid_thermal, maskZero, validVals, List.filterMap_cons]

/-! ### Functional description of `simple_lst_calculation` -/

theorem valid_thermal_ne_nil {t : List ℚ} {x : ℚ} (hx : x ∈ t) (hx0 : x ≠ 0) :
    (valid_thermal t).length ≠ 0 := by
  intro hlen
  have hmem : some x ∈ maskZero t := by
    unfold maskZero
    rw [List.mem_map]
    exact ⟨x, hx, by rw [if_neg hx0]⟩
  have hv : x ∈ validVals (maskZero t) := mem_validVals.mpr hmem
  have hnil : validVals (maskZero t) = [] := List.length_eq_zero.mp hlen
  rw [hnil] at hv
  exact absurd hv (List.not_mem_nil x)

theorem regime_remap_bounds (V : List ℚ) (y : ℚ) :
    10 ≤ (if npMean V < 35000 then (10 : ℚ) else 15) +
        clip01 y * ((if npMean V < 35000 then (45 : ℚ) else 50) -
          (if npMean V < 35000 then (10 : ℚ) else 15)) ∧
      (if npMean V < 35000 then (10 : ℚ) else 15) +
        clip01 y * ((if npMean V < 35000 then (45 : ℚ) else 50) -
          (if npMean V < 35000 then (10 : ℚ) else 15)) ≤ 50 := by
  have h0 := clip01_nonneg y
  have h1 := clip01_le_one y
  by_cases hm : npMean V < 35000 <;>
    simp only [if_pos, if_neg, hm, if_true, if_false] <;>
    constructor <;> nlinarith

/-- With at least one valid value and a positive 1st-to-99th percentile
span, `simple_lst_calculation` maps each zero pixel to nodata and each
non-zero pixel to the regime-remapped clip-normalised value (which lies
in [10, 50], so the final [-50, 80] filter keeps it). -/
theorem simple_lst_eq_pos (t : List ℚ) (hlen : (valid_thermal t).length ≠ 0)
    (hr : 0 < percentile (valid_thermal t) 99 - percentile (valid_thermal t) 1) :
    simple_lst_calculation t = t.map (fun x => if x = 0 then none else
      some ((if npMean (valid_thermal t) < 35000 then (10 : ℚ) else 15) +
        clip01 ((x - percentile (valid_thermal t) 1) /
            (percentile (valid_thermal t) 99 - percentile (valid_thermal t) 1)) *
          ((if npMean (valid_thermal t) < 35000 then (45 : ℚ) else 50) -
            (if npMean (valid_thermal t) < 35000 then (10 : ℚ) else 15)))) := by
  unfold simple_lst_calculation
  rw [if_neg hlen]
  simp only [if_pos hr]
  unfold maskZero
  rw [List.map_map, List.map_map]
  refine List.map_congr_left (fun x _ => ?_)
  simp only [Function.comp]
  by_cases hx : x = 0
  · rw [if_pos hx, if_pos hx]
    rfl
  · rw [if_neg hx, if_neg hx]
    simp only [Option.map_some', Option.some_bind]
    have hb := regime_remap_bounds (valid_thermal t)
      ((x - percentile (valid_thermal t) 1) /
        (percentile (valid_thermal t) 99 - percentile (valid_thermal t) 1))
    rw [if_neg]
    push_neg
    exact ⟨by linarith [hb.1], by linarith [hb.2]⟩

/-- With at least one valid value but a degenerate percentile span,
`np.full_like` fills every pixel (also the zero/nodata ones) with the
midpoint of the chosen regime range, and the final filter keeps it. -/
theorem simple_lst_eq_deg (t : List ℚ) (hlen : (valid_thermal t).length ≠ 0)
    (hr : percentile (valid_thermal t) 99 - percentile (valid_thermal t) 1 ≤ 0) :
    simple_lst_calculation t = t.map (fun _ =>
      some (((if npMean (valid_thermal t) < 35000 then (10 : ℚ) else 15) +
        (if npMean (valid_thermal t) < 35000 then (45 : ℚ) else 50)) / 2)) := by
  unfold simple_lst_calculation
  rw [if_neg hlen]
  simp only [if_neg (not_lt.mpr hr)]
  unfold maskZero
  rw [List.map_map, List.map_map]
  refine List.map_congr_left (fun x _ => ?_)
  simp only [Function.comp, Option.some_bind]
  rw [if_neg]
  by_cases hm : npMean (valid_thermal t) < 35000 <;>
    simp only [if_pos, if_neg, hm, if_true, if_false] <;> push_neg <;>
    constructor <;> norm_num

/-- Concrete evaluation: the grid `[0, 5]` is degenerate (single distinct
valid value, cool regime) and comes out filled with 27.5. -/
theorem lst_eval_05 : simple_lst_calculation [0, 5] = [some (55/2), some (55/2)] := by
  have hval : valid_thermal [0, 5] = [5] := valid_thermal_05
  have h := simple_lst_eq_deg [0, 5]
    (by rw [hval]; norm_num)
    (by rw [hval, percentile_single, percentile_single]; norm_num)
  rw [hval] at h
  rw [h]
  norm_num [npMean]

/-! ### C1: every finite LST output lies in [-50, 80] -/

/-- C1: for every thermal input grid, every non-invalid pixel of the
temperature-estimate output lies in [-50, 80]; anything outside that
interval has been marked invalid by the final filter, so no value
outside [-50, 80] is ever emitted by `simple_lst_calculation`. -/
theorem lst_output_in_envelope (thermal_dn : List ℚ) (i : ℕ) (v : ℚ)
    (h : (simple_lst_calculation thermal_dn)[i]? = some (some v)) :
    -50 ≤ v ∧ v ≤ 80 := by
  unfold simple_lst_calculation at h
  by_cases hlen : (valid_thermal thermal_dn).length = 0
  · rw [if_pos hlen] at h
    exfalso
    have hmem : (some v) ∈ maskZero thermal_dn := by
      have := List.getElem?_eq_some.mp h
      obtain ⟨hlt, hget⟩ := this
      exact hget ▸ List.getElem_mem hlt
    have hv : v ∈ validVals (maskZero thermal_dn) := mem_validVals.mpr hmem
    have hnil : validVals (maskZero thermal_dn) = [] := List.length_eq_zero.mp hlen
    rw [hnil] at hv
    exact absurd hv (List.not_mem_nil v)
  · rw [if_neg hlen] at h
    simp only [List.getElem?_map] at h
    obtain ⟨p, hp, hfp⟩ := Option.map_eq_some'.mp h
    obtain ⟨w, hw, hite⟩ := Option.bind_eq_some.mp hfp
    by_cases hcond : w < -50 ∨ 80 < w
    · rw [if_pos hcond] at hite
      exact absurd hite (by simp)
    · rw [if_neg hcond] at hite
      push_neg at hcond
      obtain ⟨h1, h2⟩ := hcond
      cases hite
      exact ⟨h1, h2⟩

/-- Closed instance of C1 at the grid `[0, 5]`, whose pixel 0 evaluates
to 27.5 = 55/2. -/
theorem lst_output_in_envelope_witness : -50 ≤ (55/2 : ℚ) ∧ (55/2 : ℚ) ≤ 80 :=
  lst_output_in_envelope [0, 5] 0 (55/2) (by rw [lst_eval_05]; rfl)

/-! ### C10: the finite LST outputs in fact lie in [10, 50] -/

/-- C10: every non-invalid pixel of the temperature estimate lies in
[10, 50], the union of the two regime ranges [10, 45] and [15, 50] — a
strictly tighter bound than the stated [-50, 80] envelope: the [0,1]
clip confines non-degenerate outputs to the chosen regime range, and the
degenerate midpoint fill (27.5 or 32.5) also lies within it. -/
theorem lst_output_in_regime_union (thermal_dn : List ℚ) (i : ℕ) (v : ℚ)
    (h : (simple_lst_calculation thermal_dn)[i]? = some (some v)) :
    10 ≤ v ∧ v ≤ 50 := by
  by_cases hlen : (valid_thermal thermal_dn).length = 0
  · exfalso
    unfold simple_lst_calculation at h
    rw [if_pos hlen] at h
    have hmem : (some v) ∈ maskZero thermal_dn := by
      obtain ⟨hlt, hget⟩ := List.getElem?_eq_some.mp h
      exact hget ▸ List.getElem_mem hlt
    have hv : v ∈ validVals (maskZero thermal_dn) := mem_validVals.mpr hmem
    have hnil : validVals (maskZero thermal_dn) = [] := List.length_eq_zero.mp hlen
    rw [hnil] at hv
    exact absurd hv (List.not_mem_nil v)
  · by_cases hr : 0 < percentile (valid_thermal thermal_dn) 99 -
        percentile (valid_thermal thermal_dn) 1
    · rw [simple_lst_eq_pos _ hlen hr, List.getElem?_map] at h
      obtain ⟨x, _, hfx⟩ := Option.map_eq_some'.mp h
      by_cases hx0 : x = 0
      · rw [if_pos hx0] at hfx
        exact absurd hfx (by simp)
      · rw [if_neg hx0] at hfx
        have hv := Option.some_injective _ hfx
        have hb := regime_remap_bounds (valid_thermal thermal_dn)
          ((x - percentile (valid_thermal thermal_dn) 1) /
            (percentile (valid_thermal thermal_dn) 99 -
              percentile (valid_thermal thermal_dn) 1))
        rw [← hv]
        exact hb
    · rw [simple_lst_eq_deg _ hlen (le_of_not_lt hr), List.getElem?_map] at h
      obtain ⟨x, _, hfx⟩ := Option.map_eq_some'.mp h
      have hv := Option.some_injective _ hfx
      rw [← hv]
      by_cases hm : npMean (valid_thermal thermal_dn) < 35000 <;>
        simp only [if_pos, if_neg, hm, if_true, if_false] <;> constructor <;> norm_num

/-- Closed instance of C10 at the grid `[0, 5]`. -/
theorem lst_output_in_regime_union_witness : 10 ≤ (55/2 : ℚ) ∧ (55/2 : ℚ) ≤ 50 :=
  lst_output_in_regime_union [0, 5] 0 (55/2) (by rw [lst_eval_05]; rfl)

/-! ### C2: regime classification, percentile remap, degenerate fill -/

/-- C2: with at least one non-zero pixel, the scene is classified by the
mean of the valid digital values against 35000 (below → range [10, 45]
with midpoint 27.5, at/above → [15, 50] with midpoint 32.5); with a
positive 1st-to-99th percentile span every valid pixel is clamped to
that span, normalised to [0, 1] and linearly remapped into the chosen
range, and with a degenerate span the whole output grid is filled with
the midpoint of the chosen range. -/
theorem lst_regime_classification (thermal_dn : List ℚ)
    (h : ∃ x ∈ thermal_dn, x ≠ 0) :
    ∃ temp_min temp_max : ℚ,
      ((npMean (valid_thermal thermal_dn) < 35000 ∧ temp_min = 10 ∧ temp_max = 45 ∧
          (temp_min + temp_max) / 2 = 27.5) ∨
       (35000 ≤ npMean (valid_thermal thermal_dn) ∧ temp_min = 15 ∧ temp_max = 50 ∧
          (temp_min + temp_max) / 2 = 32.5)) ∧
      (0 < percentile (valid_thermal thermal_dn) 99 - percentile (valid_thermal thermal_dn) 1 →
        simple_lst_calculation thermal_dn = thermal_dn.map (fun x => if x = 0 then none else
          some (temp_min + clip01 ((x - percentile (valid_thermal thermal_dn) 1) /
              (percentile (valid_thermal thermal_dn) 99 -
                percentile (valid_thermal thermal_dn) 1)) * (temp_max - temp_min)))) ∧
      (percentile (valid_thermal thermal_dn) 99 - percentile (valid_thermal thermal_dn) 1 ≤ 0 →
        simple_lst_calculation thermal_dn =
          thermal_dn.map (fun _ => some ((temp_min + temp_max) / 2))) := by
  obtain ⟨x, hx, hx0⟩ := h
  have hlen := valid_thermal_ne_nil hx hx0
  by_cases hm : npMean (valid_thermal thermal_dn) < 35000
  · refine ⟨10, 45, Or.inl ⟨hm, rfl, rfl, by norm_num⟩, fun hr => ?_, fun hr => ?_⟩
    · rw [simple_lst_eq_pos _ hlen hr]
      simp only [if_pos hm, if_true]
    · rw [simple_lst_eq_deg _ hlen hr]
      simp only [if_pos hm, if_true]
  · refine ⟨15, 50, Or.inr ⟨le_of_not_lt hm, rfl, rfl, by norm_num⟩, fun hr => ?_, fun hr => ?_⟩
    · rw [simple_lst_eq_pos _ hlen hr]
      simp only [if_neg hm, if_false]
    · rw [simple_lst_eq_deg _ hlen hr]
      simp only [if_neg hm, if_false]

/-- Closed instance of C2 at `[0, 5]`: the hypothesis is discharged with
the non-zero pixel 5, the mean-5 scene is classified cool, the span is
degenerate, and the grid comes out filled with 27.5. -/
theorem lst_regime_classification_witness :
    simple_lst_calculation [0, 5] = [some (55/2), some (55/2)] := by
  obtain ⟨tmin, tmax, hreg, _, hdeg⟩ :=
    lst_regime_classification [0, 5] ⟨5, by norm_num, by norm_num⟩
  have hspan : percentile (valid_thermal [0, 5]) 99 - percentile (valid_thermal [0, 5]) 1 ≤ 0 := by
    rw [valid_thermal_05, percentile_single, percentile_single]
    norm_num
  have hmean : npMean (valid_thermal [0, 5]) = 5 := by
    rw [valid_thermal_05, npMean_single]
  rcases hreg with ⟨_, h10, h45, _⟩ | ⟨hge, _, _, _⟩
  · rw [hdeg hspan, h10, h45]
    norm_num
  · rw [hmean] at hge
    norm_num at hge

/-! ### C3: zero pixels and nodata (corrected) -/

/-- Counterexample to C3 as stated: in the grid `[0, 5]` the percentile
span of the valid values is degenerate, and the zero pixel comes out as
the finite midpoint 27.5, not as nodata. -/
theorem lst_zero_pixel_counterexample :
    (simple_lst_calculation [0, 5])[0]? = some (some (55/2)) ∧
      (simple_lst_calculation [0, 5])[0]? ≠ some none := by
  rw [lst_eval_05]
  exact ⟨rfl, by simp⟩

/-- C3 as amended: a zero pixel is nodata in the output whenever the
grid has no valid pixel at all or the 1st-to-99th percentile span of the
valid values is positive (in the degenerate case the midpoint fill
overwrites the nodata pixels instead). -/
theorem lst_zero_pixel_nodata (thermal_dn : List ℚ) (i : ℕ)
    (hz : thermal_dn[i]? = some 0)
    (hspan : (valid_thermal thermal_dn).length = 0 ∨
      0 < percentile (valid_thermal thermal_dn) 99 - percentile (valid_thermal thermal_dn) 1) :
    (simple_lst_calculation thermal_dn)[i]? = some none := by
  rcases hspan with hlen | hr
  · unfold simple_lst_calculation
    rw [if_pos hlen]
    unfold maskZero
    rw [List.getElem?_map, hz]
    simp
  · have hlen : (valid_thermal thermal_dn).length ≠ 0 := by
      intro h0
      have hnil : valid_thermal thermal_dn = [] := List.length_eq_zero.mp h0
      rw [hnil, percentile_nil, percentile_nil] at hr
      norm_num at hr
    rw [simple_lst_eq_pos _ hlen hr, List.getElem?_map, hz]
    simp

/-- Closed instance of the amended C3 at `[0, 5, 9]`: positive span, the
zero pixel is nodata. -/
theorem lst_zero_pixel_nodata_witness : (simple_lst_calculation [0, 5, 9])[0]? = some none := by
  have hval : valid_thermal [0, 5, 9] = [5, 9] := by
    norm_num [valid_thermal, maskZero, validVals, List.filterMap_cons]
  refine lst_zero_pixel_nodata [0, 5, 9] 0 rfl (Or.inr ?_)
  rw [hval, percentile_pair 99 (by norm_num) (by norm_num) (by norm_num),
      percentile_pair 1 (by norm_num) (by norm_num) (by norm_num)]
  norm_num

/-! ### C4: NDVI formula, example and bounds -/

/-- The spec's description of one NDVI pixel: where both bands are
non-zero and `nir + red > 0`, the ratio `(nir - red) / (nir + red)`
clamped to [-1, 1]; an invalid pixel otherwise. -/
def ndviSpecPix (rv nv : ℚ) : Pix :=
  if rv ≠ 0 ∧ nv ≠ 0 ∧ 0 < nv + rv then some (clipQ (-1) 1 ((nv - rv) / (nv + rv))) else none

theorem clipQ_eval {x : ℚ} (h1 : -1 ≤ x) (h2 : x ≤ 1) : clipQ (-1) 1 x = x := by
  unfold clipQ
  rw [max_eq_right h1, min_eq_right h2]

theorem clipQ_lower (x : ℚ) : -1 ≤ clipQ (-1) 1 x :=
  le_min (by norm_num) (le_max_left _ _)

theorem clipQ_upper (x : ℚ) : clipQ (-1) 1 x ≤ 1 := min_le_left _ _

theorem ndviPix_spec (rv nv : ℚ) :
    Option.map (clipQ (-1) 1)
        (ndviPix (if rv = 0 then none else some rv) (if nv = 0 then none else some nv)) =
      ndviSpecPix rv nv := by
  by_cases hr : rv = 0 <;> by_cases hn : nv = 0 <;>
    simp [ndviPix, ndviSpecPix, hr, hn, apply_ite (Option.map (clipQ (-1) 1))]

theorem ndvi_pointwise : ∀ red_dn nir_dn : List ℚ,
    simple_ndvi_calculation red_dn nir_dn = List.zipWith ndviSpecPix red_dn nir_dn
  | [], nir_dn => by simp [simple_ndvi_calculation, maskZero]
  | r :: rs, [] => by simp [simple_ndvi_calculation, maskZero]
  | r :: rs, n :: ns => by
    have ih := ndvi_pointwise rs ns
    simp only [simple_ndvi_calculation, maskZero] at ih ⊢
    simp only [List.map_cons, List.zipWith_cons_cons]
    rw [ndviPix_spec]
    exact congrArg _ ih

theorem zipWith_getElem?_some {α β γ : Type} (f : α → β → γ) :
    ∀ (l : List α) (l' : List β) (i : ℕ) (p : γ),
      (List.zipWith f l l')[i]? = some p →
      ∃ a b, l[i]? = some a ∧ l'[i]? = some b ∧ p = f a b
  | [], _, _, _, h => by simp at h
  | _ :: _, [], _, _, h => by simp at h
  | a :: as, b :: bs, 0, p, h => by
    simp only [List.zipWith_cons_cons, List.getElem?_cons_zero, Option.some_inj] at h
    exact ⟨a, b, by simp, by simp, h.symm⟩
  | a :: as, b :: bs, i + 1, p, h => by
    simp only [List.zipWith_cons_cons, List.getElem?_cons_succ] at h
    obtain ⟨x, y, hx, hy, hp⟩ := zipWith_getElem?_some f as bs i p h
    exact ⟨x, y, by simpa using hx, by simpa using hy, hp⟩

/-- C4: `simple_ndvi_calculation` computes, at each pixel where both
bands are non-zero and `nir + red > 0`, the ratio `(nir - red) /
(nir + red)` clamped to [-1, 1], and an invalid pixel otherwise; the 2×2
scene red = [10,20;30,40], nir = [40,30;20,10] (row-major) yields
exactly [0.6, 0.2; -0.2, -0.6]; and every valid output lies in [-1, 1]. -/
theorem ndvi_formula_example_bounds :
    (∀ red_dn nir_dn : List ℚ,
        simple_ndvi_calculation red_dn nir_dn = List.zipWith ndviSpecPix red_dn nir_dn) ∧
      simple_ndvi_calculation [10, 20, 30, 40] [40, 30, 20, 10] =
        [some (3/5), some (1/5), some (-1/5), some (-3/5)] ∧
      ∀ (red_dn nir_dn : List ℚ) (i : ℕ) (v : ℚ),
        (simple_ndvi_calculation red_dn nir_dn)[i]? = some (some v) → -1 ≤ v ∧ v ≤ 1 := by
  refine ⟨ndvi_pointwise, ?_, ?_⟩
  · rw [ndvi_pointwise]
    simp only [List.zipWith_cons_cons, List.zipWith_nil_right, ndviSpecPix]
    norm_num
    refine ⟨?_, ?_, ?_, ?_⟩ <;> rw [clipQ_eval (by norm_num) (by norm_num)]
  · intro red_dn nir_dn i v h
    rw [ndvi_pointwise] at h
    obtain ⟨a, b, _, _, hp⟩ := zipWith_getElem?_some ndviSpecPix red_dn nir_dn i (some v) h
    unfold ndviSpecPix at hp
    by_cases hc : a ≠ 0 ∧ b ≠ 0 ∧ 0 < b + a
    · rw [if_pos hc] at hp
      have hv := Option.some_injective _ hp.symm
      subst hv
      exact ⟨clipQ_lower _, clipQ_upper _⟩
    · rw [if_neg hc] at hp
      exact absurd hp (by simp)

/-! ### C5: UHI is the pixel value minus the scene median -/

/-- C5: with at least one valid pixel, `simple_uhi_calculation` outputs
at each valid pixel exactly the pixel value minus the median of the
valid pixels of that same grid (invalid pixels stay invalid, nothing is
clamped), so a pixel equal to the scene median gets anomaly exactly 0. -/
theorem uhi_median_anomaly (lst_data : Grid) (h : validVals lst_data ≠ []) :
    simple_uhi_calculation lst_data =
        lst_data.map (fun p => p.map (fun x => x - npMedian (validVals lst_data))) ∧
      ∀ (i : ℕ) (x : ℚ), lst_data[i]? = some (some x) →
        x = npMedian (validVals lst_data) →
        (simple_uhi_calculation lst_data)[i]? = some (some 0) := by
  have hlen : ¬(validVals lst_data).length = 0 := fun h0 => h (List.length_eq_zero.mp h0)
  have heq : simple_uhi_calculation lst_data =
      lst_data.map (fun p => p.map (fun x => x - npMedian (validVals lst_data))) := by
    unfold simple_uhi_calculation
    rw [if_neg hlen]
  refine ⟨heq, fun i x hx hmed => ?_⟩
  rw [heq, List.getElem?_map, hx]
  simp only [Option.map_some']
  rw [hmed]
  simp

/-- Closed instance of C5 at the single-pixel grid `[some 5]`, whose
median is 5: the anomaly at that pixel is 0. -/
theorem uhi_median_anomaly_witness : (simple_uhi_calculation [some 5])[0]? = some (some 0) :=
  (uhi_median_anomaly [some 5] (by simp [validVals])).2 0 5 rfl
    (by rw [show validVals [some (5:ℚ)] = [5] from rfl, npMedian_single])

/-! ### C6: all-zero thermal input propagates as all-invalid -/

/-- C6: an all-zero thermal grid yields an all-invalid grid of the same
shape from `simple_lst_calculation` (both functions are total, so
nothing is raised), and feeding that all-invalid grid to
`simple_uhi_calculation` again yields an all-invalid grid of the same
shape. -/
theorem all_zero_propagation (n : ℕ) :
    simple_lst_calculation (List.replicate n 0) = List.replicate n none ∧
      simple_uhi_calculation (List.replicate n none) = List.replicate n none := by
  have hmask : maskZero (List.replicate n (0 : ℚ)) = List.replicate n none := by
    unfold maskZero
    rw [List.map_replicate]
    simp
  have hvalid : validVals (List.replicate n (none : Pix)) = [] := by
    rw [validVals_nil_iff]
    intro p hp
    exact List.eq_of_mem_replicate hp
  constructor
  · simp only [simple_lst_calculation, valid_thermal, hmask, hvalid]
    simp
  · simp only [simple_uhi_calculation, hvalid]
    simp [List.map_replicate]

/-! ### C7: `calculate_simple_stats` -/

/-- `np.min` of a non-empty list (the `[]` default is never reached: the
source guards every call by a positive-length check). -/
def npMin : List ℚ → ℚ
  | [] => 0
  | x :: xs => xs.foldl min x

/-- `np.max` of a non-empty list (same guard remark as `npMin`). -/
def npMax : List ℚ → ℚ
  | [] => 0
  | x :: xs => xs.foldl max x

/-- The population variance `np.mean(abs(l - l.mean())**2)` under
`np.std`'s square root (default `ddof = 0`); `abs x ^ 2 = x ^ 2`. -/
def npVar (l : List ℚ) : ℚ := npMean (l.map (fun x => (x - npMean l) ^ 2))

/-- `np.std` with the default `ddof = 0`: the square root of the
population variance.  The square root lives in ℝ. -/
noncomputable def npStd (l : List ℚ) : ℝ := Real.sqrt (npVar l)

/-- The statistics dictionary built by `calculate_simple_stats`: one
`(min, max, mean, std)` quadruple per index grid, `none` standing for
the `np.nan` missing markers. -/
structure SimpleStats where
  LST_min : Option ℚ
  LST_max : Option ℚ
  LST_mean : Option ℚ
  LST_std : Option ℝ
  NDVI_min : Option ℚ
  NDVI_max : Option ℚ
  NDVI_mean : Option ℚ
  NDVI_std : Option ℝ
  UHI_min : Option ℚ
  UHI_max : Option ℚ
  UHI_mean : Option ℚ
  UHI_std : Option ℝ

/-- `SimpleLandsatAnalysis.calculate_simple_stats`: for each of the
three index grids, restrict to the valid pixels; emit the four numpy
reductions when any pixel is valid, else the four `np.nan` markers. -/
noncomputable def calculate_simple_stats (lst ndvi uhi : Grid) : SimpleStats :=
  let lst_valid := validVals lst
  let ndvi_valid := validVals ndvi
  let uhi_valid := validVals uhi
  { LST_min := if 0 < lst_valid.length then some (npMin lst_valid) else none
    LST_max := if 0 < lst_valid.length then some (npMax lst_valid) else none
    LST_mean := if 0 < lst_valid.length then some (npMean lst_valid) else none
    LST_std := if 0 < lst_valid.length then some (npStd lst_valid) else none
    NDVI_min := if 0 < ndvi_valid.length then some (npMin ndvi_valid) else none
    NDVI_max := if 0 < ndvi_valid.length then some (npMax ndvi_valid) else none
    NDVI_mean := if 0 < ndvi_valid.length then some (npMean ndvi_valid) else none
    NDVI_std := if 0 < ndvi_valid.length then some (npStd ndvi_valid) else none
    UHI_min := if 0 < uhi_valid.length then some (npMin uhi_valid) else none
    UHI_max := if 0 < uhi_valid.length then some (npMax uhi_valid) else none
    UHI_mean := if 0 < uhi_valid.length then some (npMean uhi_valid) else none
    UHI_std := if 0 < uhi_valid.length then some (npStd uhi_valid) else none }

theorem foldl_min_mem : ∀ (xs : List ℚ) (x : ℚ), xs.foldl min x ∈ x :: xs
  | [], _ => by simp
  | y :: ys, x => by
    simp only [List.foldl_cons]
    rcases List.mem_cons.mp (foldl_min_mem ys (min x y)) with h1 | h2
    · rw [h1]
      rcases min_choice x y with hm | hm <;> rw [hm]
      · exact List.mem_cons_self _ _
      · exact List.mem_cons_of_mem _ (List.mem_cons_self _ _)
    · exact List.mem_cons_of_mem _ (List.mem_cons_of_mem _ h2)

theorem foldl_min_le : ∀ (xs : List ℚ) (x y : ℚ), y ∈ x :: xs → xs.foldl min x ≤ y
  | [], x, y, hy => by
    simp only [List.foldl_nil]
    simp at hy
    exact le_of_eq hy.symm
  | z :: zs, x, y, hy => by
    simp only [List.foldl_cons]
    rcases List.mem_cons.mp hy with h1 | h2
    · rw [h1]
      exact le_trans (foldl_min_le zs (min x z) (min x z) (List.mem_cons_self _ _))
        (min_le_left x z)
    · rcases List.mem_cons.mp h2 with h3 | h4
      · rw [h3]
        exact le_trans (foldl_min_le zs (min x z) (min x z) (List.mem_cons_self _ _))
          (min_le_right x z)
      · exact foldl_min_le zs (min x z) y (List.mem_cons_of_mem _ h4)

theorem foldl_max_mem : ∀ (xs : List ℚ) (x : ℚ), xs.foldl max x ∈ x :: xs
  | [], _ => by simp
  | y :: ys, x => by
    simp only [List.foldl_cons]
    rcases List.mem_cons.mp (foldl_max_mem ys (max x y)) with h1 | h2
    · rw [h1]
      rcases max_choice x y with hm | hm <;> rw [hm]
      · exact List.mem_cons_self _ _
      · exact List.mem_cons_of_mem _ (List.mem_cons_self _ _)
    · exact List.mem_cons_of_mem _ (List.mem_cons_of_mem _ h2)

theorem le_foldl_max : ∀ (xs : List ℚ) (x y : ℚ), y ∈ x :: xs → y ≤ xs.foldl max x
  | [], x, y, hy => by
    simp only [List.foldl_nil]
    simp at hy
    exact le_of_eq hy
  | z :: zs, x, y, hy => by
    simp only [List.foldl_cons]
    rcases List.mem_cons.mp hy with h1 | h2
    · rw [h1]
      exact le_trans (le_max_left x z)
        (le_foldl_max zs (max x z) (max x z) (List.mem_cons_self _ _))
    · rcases List.mem_cons.mp h2 with h3 | h4
      · rw [h3]
        exact le_trans (le_max_right x z)
          (le_foldl_max zs (max x z) (max x z) (List.mem_cons_self _ _))
      · exact le_foldl_max zs (max x z) y (List.mem_cons_of_mem _ h4)

theorem npVar_nonneg (l : List ℚ) : 0 ≤ npVar l := by
  unfold npVar npMean
  apply div_nonneg
  · apply List.sum_nonneg
    intro x hx
    obtain ⟨y, _, rfl⟩ := List.mem_map.mp hx
    positivity
  · positivity

/-- What the spec requires of one statistics quadruple for the valid
values `v`: when `v` is non-empty, `min`/`max` are elements of `v`
bounding all of `v`, `mean` is the sum over the count, and `std` is the
nonnegative real whose square times the count equals the sum of squared
deviations from the mean (the population standard deviation, `ddof` 0);
when `v` is empty all four are missing markers. -/
def statsCorrect (v : List ℚ) (mn mx mean : Option ℚ) (std : Option ℝ) : Prop :=
  (v = [] → mn = none ∧ mx = none ∧ mean = none ∧ std = none) ∧
  (v ≠ [] →
    (∃ a, mn = some a ∧ a ∈ v ∧ ∀ x ∈ v, a ≤ x) ∧
    (∃ b, mx = some b ∧ b ∈ v ∧ ∀ x ∈ v, x ≤ b) ∧
    mean = some (v.sum / v.length) ∧
    (∃ r : ℝ, std = some r ∧ 0 ≤ r ∧
      (v.length : ℝ) * r ^ 2 = ((((v.map (fun x => (x - v.sum / v.length) ^ 2)).sum : ℚ) : ℝ))))

theorem npStd_sq (v : List ℚ) (hv : v ≠ []) :
    (v.length : ℝ) * npStd v ^ 2 =
      ((((v.map (fun x => (x - v.sum / v.length) ^ 2)).sum : ℚ) : ℝ)) := by
  have hlen : (v.length : ℚ) ≠ 0 := by
    have := List.length_pos.mpr hv
    positivity
  have hq : (v.length : ℚ) * npVar v = (v.map (fun x => (x - npMean v) ^ 2)).sum := by
    unfold npVar npMean
    rw [List.length_map, mul_comm, div_mul_cancel₀ _ hlen]
  have hcast := congrArg (fun q : ℚ => (q : ℝ)) hq
  simp only [Rat.cast_mul, Rat.cast_natCast] at hcast
  unfold npMean at hcast
  unfold npStd
  rw [Real.sq_sqrt (by exact_mod_cast npVar_nonneg v)]
  exact hcast

theorem statsCorrect_of (v : List ℚ) :
    statsCorrect v (if 0 < v.length then some (npMin v) else none)
      (if 0 < v.length then some (npMax v) else none)
      (if 0 < v.length then some (npMean v) else none)
      (if 0 < v.length then some (npStd v) else none) := by
  unfold statsCorrect
  constructor
  · intro hnil
    subst hnil
    simp
  · intro hne
    have hpos : 0 < v.length := List.length_pos.mpr hne
    rw [if_pos hpos, if_pos hpos, if_pos hpos, if_pos hpos]
    refine ⟨⟨npMin v, rfl, ?_, ?_⟩, ⟨npMax v, rfl, ?_, ?_⟩, rfl,
      npStd v, rfl, Real.sqrt_nonneg _, npStd_sq v hne⟩
    · cases v with
      | nil => exact absurd rfl hne
      | cons x xs => exact foldl_min_mem xs x
    · cases v with
      | nil => exact absurd rfl hne
      | cons x xs => exact fun y hy => foldl_min_le xs x y hy
    · cases v with
      | nil => exact absurd rfl hne
      | cons x xs => exact foldl_max_mem xs x
    · cases v with
      | nil => exact absurd rfl hne
      | cons x xs => exact fun y hy => le_foldl_max xs x y hy

/-- C7: for every triple of index grids, `calculate_simple_stats` emits,
per grid, the minimum, maximum, mean and population standard deviation
of its valid pixels when at least one exists, and emits all four
statistics as missing markers for a grid with no valid pixel. -/
theorem stats_per_band (lst ndvi uhi : Grid) :
    statsCorrect (validVals lst)
        (calculate_simple_stats lst ndvi uhi).LST_min
        (calculate_simple_stats lst ndvi uhi).LST_max
        (calculate_simple_stats lst ndvi uhi).LST_mean
        (calculate_simple_stats lst ndvi uhi).LST_std ∧
      statsCorrect (validVals ndvi)
        (calculate_simple_stats lst ndvi uhi).NDVI_min
        (calculate_simple_stats lst ndvi uhi).NDVI_max
        (calculate_simple_stats lst ndvi uhi).NDVI_mean
        (calculate_simple_stats lst ndvi uhi).NDVI_std ∧
      statsCorrect (validVals uhi)
        (calculate_simple_stats lst ndvi uhi).UHI_min
        (calculate_simple_stats lst ndvi uhi).UHI_max
        (calculate_simple_stats lst ndvi uhi).UHI_mean
        (calculate_simple_stats lst ndvi uhi).UHI_std :=
  ⟨statsCorrect_of (validVals lst), statsCorrect_of (validVals ndvi),
    statsCorrect_of (validVals uhi)⟩

/-! ### C8: the renderer's value-range policy -/

/-- `pat` begins the character list `s`. -/
def startsWith : List Char → List Char → Bool
  | [], _ => true
  | _ :: _, [] => false
  | p :: ps, c :: cs => p == c && startsWith ps cs

/-- Python's substring test `pat in s` on character lists. -/
def hasSub (pat : List Char) : List Char → Bool
  | [] => startsWith pat []
  | c :: cs => startsWith pat (c :: cs) || hasSub pat cs

/-- Python's `pat in title` on strings. -/
def inTitle (pat title : String) : Bool := hasSub pat.data title.data

/-- The color-scale policy of `SimpleLandsatAnalysis.create_simple_plot`:
the `(vmin, vmax)` pair handed to the renderer, `none` standing for the
plotting library's default.  The dispatch mirrors the source's substring
tests on the plot title. -/
def create_simple_plot_range (title : String) (data : Grid) : Option ℚ × Option ℚ :=
  let valid_data := validVals data
  if inTitle ("LST") title || inTitle ("Temperature") title then
    if 0 < valid_data.length then
      (some (max 15 (percentile valid_data 2)), some (min 60 (percentile valid_data 98)))
    else (some 15, some 50)
  else if inTitle ("UHI") title then
    if 0 < valid_data.length then
      (some (-(min (max (abs (percentile valid_data 2)) (abs (percentile valid_data 98))) 12)),
       some (min (max (abs (percentile valid_data 2)) (abs (percentile valid_data 98))) 12))
    else (some (-8), some 8)
  else
    if 0 < valid_data.length then
      (some (percentile valid_data 5), some (percentile valid_data 95))
    else (none, none)

/-- The renderer's value range by title dispatch: a title mentioning
LST or Temperature gets, given valid pixels,
[max(15, 2nd percentile), min(60, 98th percentile)] with fallback
[15, 50]; a title mentioning UHI gets the symmetric range of magnitude
min(max(|2nd percentile|, |98th percentile|), 12) with fallback
[-8, 8]; any other title gets [5th percentile, 95th percentile] with
the library default as fallback.  Note the pipeline's own heat-anomaly
title, `Urban Heat Island - {period}`, matches none of the substrings. -/
theorem plot_range_policy (title : String) (data : Grid) :
    ((inTitle ("LST") title || inTitle ("Temperature") title) = true →
      create_simple_plot_range title data =
        (if 0 < (validVals data).length then
          (some (max 15 (percentile (validVals data) 2)),
            some (min 60 (percentile (validVals data) 98)))
        else (some 15, some 50))) ∧
    ((inTitle ("LST") title || inTitle ("Temperature") title) = false →
      inTitle ("UHI") title = true →
      create_simple_plot_range title data =
        (if 0 < (validVals data).length then
          (some (-(min (max (abs (percentile (validVals data) 2))
              (abs (percentile (validVals data) 98))) 12)),
            some (min (max (abs (percentile (validVals data) 2))
              (abs (percentile (validVals data) 98))) 12))
        else (some (-8), some 8))) ∧
    ((inTitle ("LST") title || inTitle ("Temperature") title) = false →
      inTitle ("UHI") title = false →
      create_simple_plot_range title data =
        (if 0 < (validVals data).length then
          (some (percentile (validVals data) 5), some (percentile (validVals data) 95))
        else (none, none))) := by
  refine ⟨fun h1 => ?_, fun h1 h2 => ?_, fun h1 h2 => ?_⟩
  · simp only [create_simple_plot_range, h1, if_true]
  · simp only [create_simple_plot_range, h1, h2, Bool.false_eq_true, if_false, if_true]
  · simp only [create_simple_plot_range, h1, h2, Bool.false_eq_true, if_false]

/-- C8: the code diverges from the claimed policy at the pipeline's own
heat-anomaly render.  `save_outputs` titles that plot
`Urban Heat Island - {period}` (analysis.py line 196), which contains
none of the dispatch substrings — in particular not `UHI` — so
`create_simple_plot` scales the heat-anomaly grid with the generic
5th-to-95th-percentile range meant for vegetation/unclassified indices,
not with the symmetric range its UHI branch was written for: on the
one-pixel grid `[5]` the code yields `(5, 5)` where the claimed
symmetric policy yields `(-5, 5)`. -/
theorem uhi_render_range_mismatch :
    inTitle ("UHI") ("Urban Heat Island - 2023") = false ∧
    create_simple_plot_range ("Urban Heat Island - 2023") [some 5] =
      (some (percentile (validVals [some 5]) 5),
        some (percentile (validVals [some 5]) 95)) ∧
    create_simple_plot_range ("Urban Heat Island - 2023") [some 5] ≠
      (some (-(min (max (abs (percentile (validVals [some 5]) 2))
          (abs (percentile (validVals [some 5]) 98))) 12)),
        some (min (max (abs (percentile (validVals [some 5]) 2))
          (abs (percentile (validVals [some 5]) 98))) 12)) := by
  have h1 : inTitle ("LST") ("Urban Heat Island - 2023") = false := by decide
  have h2 : inTitle ("Temperature") ("Urban Heat Island - 2023") = false := by decide
  have h3 : inTitle ("UHI") ("Urban Heat Island - 2023") = false := by decide
  have hval : validVals [some (5 : ℚ)] = [5] := rfl
  have heq : create_simple_plot_range ("Urban Heat Island - 2023") [some 5] =
      (some (percentile (validVals [some 5]) 5),
        some (percentile (validVals [some 5]) 95)) := by
    simp [create_simple_plot_range, h1, h2, h3, hval]
  refine ⟨h3, heq, ?_⟩
  rw [heq, hval]
  simp only [percentile_single]
  norm_num

/-! ### C9: the batch driver -/

/-- One scan step of Python's `s.replace(pat, '')` for a non-empty
pattern, with one unit of fuel per consumed character so the recursion
stays structural (fuel `s.length` always suffices). -/
def replaceAllFuel (pat : List Char) : ℕ → List Char → List Char
  | _, [] => []
  | 0, s => s
  | n + 1, c :: cs =>
    if startsWith pat (c :: cs) then replaceAllFuel pat n (List.drop pat.length (c :: cs))
    else c :: replaceAllFuel pat n cs

/-- Python's `s.replace(pat, '')`: drop every (left-to-right,
non-overlapping) occurrence of `pat`. -/
def replaceAll (pat s : List Char) : List Char := replaceAllFuel pat s.length s

/-- `image_file.replace('_clipped_NGP.tif', '')`: the period label the
batch driver derives from a scene file name. -/
def periodOf (f : String) : String := ⟨replaceAll ("_clipped_NGP.tif").data f.data⟩

/-- Lexicographic comparison of code-point lists, Python's string order. -/
def charListLe : List Char → List Char → Bool
  | [], _ => true
  | _ :: _, [] => false
  | c :: cs, d :: ds => if c < d then true else if d < c then false else charListLe cs ds

/-- String order used by `sorted(image_files)`. -/
def strLe (x y : String) : Bool := charListLe x.data y.data

/-- Insertion step of the embedding of `sorted`. -/
def insertStr (x : String) : List String → List String
  | [] => [x]
  | y :: ys => if strLe x y then x :: y :: ys else y :: insertStr x ys

/-- `sorted(image_files)`: ascending, stable. -/
def sortStr (l : List String) : List String := l.foldr insertStr []

/-- Python dict assignment `d[k] = v` on an insertion-ordered
association list: update in place when the key exists (keeping its
original position), else append. -/
def dictInsert {α : Type} (d : List (String × α)) (k : String) (v : α) : List (String × α) :=
  if ∃ p ∈ d, p.1 = k then d.map (fun p => if p.1 = k then (k, v) else p)
  else d ++ [(k, v)]

/-- `SimpleLandsatAnalysis.run_analysis`, abstracted over per-scene
processing: `proc image_file period` is `process_image`'s statistics
row for that scene, with `none` modelling an exception raised while
processing (caught and logged by the driver, which then continues).
The result lists the summary's rows; `none` means no summary file is
written (no scene discovered, or no scene succeeded). -/
def run_analysis {α : Type} (proc : String → String → Option α)
    (image_files : List String) : Option (List α) :=
  if image_files = [] then none
  else
    let all_stats := (sortStr image_files).foldl (fun d f =>
      match proc f (periodOf f) with
      | some s => dictInsert d (periodOf f) s
      | none => d) []
    match all_stats with
    | [] => none
    | _ :: _ => some (all_stats.map Prod.snd)

theorem dictInsert_append {α : Type} (d : List (String × α)) (k : String) (v : α)
    (h : ∀ p ∈ d, p.1 ≠ k) : dictInsert d k v = d ++ [(k, v)] := by
  unfold dictInsert
  rw [if_neg]
  push_neg
  exact h

theorem fold_dictInsert {α : Type} (proc : String → String → Option α) :
    ∀ (files : List String) (d : List (String × α)),
      (∀ f ∈ files, ∀ p ∈ d, p.1 ≠ periodOf f) →
      List.Pairwise (fun f g => periodOf f ≠ periodOf g) files →
      files.foldl (fun d f =>
          match proc f (periodOf f) with
          | some s => dictInsert d (periodOf f) s
          | none => d) d
        = d ++ files.filterMap (fun f => (proc f (periodOf f)).map (fun s => (periodOf f, s)))
  | [], d, _, _ => by simp
  | f :: fs, d, h1, h2 => by
    obtain ⟨hhead, htail⟩ := List.pairwise_cons.mp h2
    simp only [List.foldl_cons, List.filterMap_cons]
    cases hproc : proc f (periodOf f) with
    | none =>
      simp only [hproc, Option.map_none']
      exact fold_dictInsert proc fs d
        (fun g hg p hp => h1 g (List.mem_cons_of_mem _ hg) p hp) htail
    | some s =>
      simp only [hproc, Option.map_some']
      have hins : dictInsert d (periodOf f) s = d ++ [(periodOf f, s)] :=
        dictInsert_append d (periodOf f) s (fun p hp => h1 f (List.mem_cons_self _ _) p hp)
      rw [hins, fold_dictInsert proc fs (d ++ [(periodOf f, s)])
        (fun g hg p hp => by
          rcases List.mem_append.mp hp with hp1 | hp2
          · exact h1 g (List.mem_cons_of_mem _ hg) p hp1
          · rw [List.mem_singleton.mp hp2]
            exact hhead g hg) htail]
      rw [List.append_assoc]
      rfl

theorem run_analysis_fold {α : Type} (proc : String → String → Option α)
    (files : List String)
    (hp : List.Pairwise (fun f g => periodOf f ≠ periodOf g) (sortStr files)) :
    ((sortStr files).foldl (fun d f =>
        match proc f (periodOf f) with
        | some s => dictInsert d (periodOf f) s
        | none => d) []).map Prod.snd
      = (sortStr files).filterMap (fun f => proc f (periodOf f)) := by
  rw [fold_dictInsert proc (sortStr files) [] (fun f _ p hp => absurd hp (List.not_mem_nil p)) hp]
  rw [List.nil_append, List.map_filterMap]
  refine List.filterMap_congr (fun f _ => ?_)
  rw [Option.map_map]
  have h : (Prod.snd ∘ fun s : α => (periodOf f, s)) = id := rfl
  rw [h, Option.map_id]
  rfl

/-- C9 (amended): the batch driver returns no summary for an empty scene
set; a failing middle scene is skipped while the other scenes' rows are
kept in processing order; and in general, provided the period labels of
the discovered scenes are pairwise distinct, the summary holds exactly
the successful scenes' rows in processing (sorted-filename) order, and
no summary is written when no scene succeeds. -/
theorem batch_driver_rows :
    (∀ (α : Type) (proc : String → String → Option α), run_analysis proc [] = none) ∧
    (run_analysis
        (fun f _ => if f = ("scene2_clipped_NGP.tif") then none
          else if f = ("scene1_clipped_NGP.tif") then some 1 else some (3 : ℕ))
        [("scene1_clipped_NGP.tif"), ("scene2_clipped_NGP.tif"), ("scene3_clipped_NGP.tif")] =
      some [1, 3]) ∧
    (∀ (α : Type) (proc : String → String → Option α) (files : List String),
      List.Pairwise (fun f g => periodOf f ≠ periodOf g) (sortStr files) →
      ((sortStr files).filterMap (fun f => proc f (periodOf f)) = [] →
        run_analysis proc files = none) ∧
      (files ≠ [] → (sortStr files).filterMap (fun f => proc f (periodOf f)) ≠ [] →
        run_analysis proc files =
          some ((sortStr files).filterMap (fun f => proc f (periodOf f))))) := by
  refine ⟨fun α proc => by simp [run_analysis], by decide, fun α proc files hp => ⟨?_, ?_⟩⟩
  · intro hnil
    unfold run_analysis
    by_cases hf : files = []
    · rw [if_pos hf]
    · rw [if_neg hf]
      have hmap := run_analysis_fold proc files hp
      rw [hnil] at hmap
      have : (sortStr files).foldl (fun d f =>
          match proc f (periodOf f) with
          | some s => dictInsert d (periodOf f) s
          | none => d) [] = [] := List.map_eq_nil_iff.mp hmap
      rw [this]
  · intro hf hne
    unfold run_analysis
    rw [if_neg hf]
    have hmap := run_analysis_fold proc files hp
    cases hfold : (sortStr files).foldl (fun d f =>
        match proc f (periodOf f) with
        | some s => dictInsert d (periodOf f) s
        | none => d) [] with
    | nil =>
      rw [hfold] at hmap
      exact absurd hmap.symm (by simpa using hne)
    | cons q qs =>
      rw [hfold] at hmap
      simp only
      rw [← hmap]

/-- Counterexample to C9 as stated: the two distinct scene files
`A_clipped_NGP.tif` and `A_clipped_NGP.tif_clipped_NGP.tif` both strip
to the period label `A`; both process successfully, yet the summary
holds a single row, because the later scene overwrote the earlier one in
the period-keyed dictionary. -/
theorem batch_driver_collision_counterexample :
    run_analysis (fun f _ => if f = ("A_clipped_NGP.tif") then some 1 else some (2 : ℕ))
        [("A_clipped_NGP.tif"), ("A_clipped_NGP.tif_clipped_NGP.tif")] = some [2] := by
  decide

end MRSAC
